import Mathlib

/-!
# Verification of `misc/patchRoot/genPatchRoot.py` (zsim)

A shallow embedding of the synthetic `/proc` + `/sys` tree generator
(`SystemImageBuilder` in the specification) and proofs about it.

The script is a linear Python 2 program: it parses options
(`-n ncpus`, `-d dir`, `-f force`), validates them, and then emits a fixed
sequence of filesystem mutations (`mkdir -p`, `echo … > file`, `ln -s`,
`cp -r`, `chmod a-w -R`), all driven by shelling out.  We embed it as a pure
function from its inputs to the sequence of filesystem actions it performs
(plus the error it stops with, when a precondition check fails), and give the
actions their evident semantics as updates to a map from paths to file
contents.  `echo s > f` writes `s` followed by a newline; a bare `echo > f`
writes a single newline.

External inputs that are not part of the reviewed sources (the two
substitution templates `cpuinfo.template` and `stat.template`, and the static
`nodeFiles` directory) are modelled as opaque parameters, as the specification
itself treats them ("opaque external resources").
-/

namespace ZsimPatchRoot

/-- Python's `sep.join(parts)`: the parts concatenated with `sep` between
consecutive parts. -/
def sjoin (sep : String) : List String → String
  | [] => ""
  | [a] => a
  | a :: b :: rest => a ++ sep ++ sjoin sep (b :: rest)

/-- The lowercase hexadecimal digit character for `d < 16`
(`0`-`9` then `a`-`f`), as produced by Python's `%x` formatting. -/
def lowerHexChar (d : Nat) : Char :=
  if d < 10 then Char.ofNat (48 + d) else Char.ofNat (87 + d)

/-- Python's `"%08x" % n` for `n < 2^32`: exactly eight lowercase hex digits,
most significant first, zero padded.  (Every accumulator value the script
formats is below `2^32`, where `%08x` produces exactly eight digits; see
`blockWord_lt_two_pow_32`.) -/
def hex8 (n : Nat) : String :=
  String.mk ((List.range 8).map fun k => lowerHexChar (n / 16 ^ (7 - k) % 16))

/-- The loop state of `getMask`: the 32-bit accumulator `cur` and the list
`l` of completed words. -/
structure MaskState where
  cur : Nat
  l : List Nat
deriving Repr, DecidableEq

/-- The guard `i >= start and i <= end` of `getMask`'s loop, for candidate
bit position `i` (a Python int comparison, so over ℤ). -/
def inRange (start e : Int) (i : Nat) : Bool :=
  decide (start ≤ (i : Int) ∧ (i : Int) ≤ e)

/-- One iteration of the `for i in range(256)` loop of `getMask`:
`j = i % 32`; if `start ≤ i ≤ end` then `cur |= 1 << j`; every 32 bits the
accumulator is appended to `l` and reset. -/
def maskStep (start e : Int) (s : MaskState) (i : Nat) : MaskState :=
  let cur := if inRange start e i then s.cur ||| (1 <<< (i % 32)) else s.cur
  if (i + 1) % 32 = 0 then { cur := 0, l := s.l ++ [cur] } else { cur := cur, l := s.l }

/-- `getMask(start, end)` from `genPatchRoot.py`: run the 256-iteration loop,
reverse the word list (most significant word first) and join the words,
rendered as `%08x`, with commas. -/
def getMask (start e : Int) : String :=
  let s := (List.range 256).foldl (maskStep start e) { cur := 0, l := [] }
  sjoin "," (s.l.reverse.map hex8)

/-! ## Specification-side view of the mask

`orBits P m` is the number whose binary digits below `m` are given by `P`;
`maskNat start e` is the 256-bit number whose bit `i` is set exactly when
`start ≤ i ≤ e`; `renderMask256 n` renders the low 256 bits of `n` as the
8 comma-joined 8-hex-digit words, most significant word first, that the
script's format produces. -/

/-- The number with bit `j` set (for `j < m`) exactly when `P j`. -/
def orBits (P : Nat → Bool) : Nat → Nat
  | 0 => 0
  | m + 1 => if P m then orBits P m ||| (1 <<< m) else orBits P m

/-- The 32-bit word of block `k` (bits `32*k` to `32*k+31`) accumulated by
`getMask`'s loop. -/
def blockWord (start e : Int) (k : Nat) : Nat :=
  orBits (fun j => inRange start e (32 * k + j)) 32

/-- The 256-bit mask value of the inclusive range `[start, e]`. -/
def maskNat (start e : Int) : Nat :=
  orBits (inRange start e) 256

/-- Rendering of a 256-bit mask value in the script's format: eight
comma-joined words of eight lowercase hex digits each, most significant
word first, word `k` holding bits `32*k` to `32*k+31`. -/
def renderMask256 (n : Nat) : String :=
  sjoin "," (((List.range 8).map fun k => hex8 (n / 2 ^ (32 * k) % 2 ^ 32)).reverse)

/-! ## Bit-level facts about `orBits` -/

theorem orBits_testBit (P : Nat → Bool) (m j : Nat) :
    (orBits P m).testBit j = (decide (j < m) && P j) := by
  induction m with
  | zero => simp [orBits, Nat.zero_testBit]
  | succ m ih =>
    rw [orBits]
    by_cases hj : j = m
    · subst hj
      rcases hP : P j with _ | _
      · rw [if_neg (by simp [hP]), ih]
        simp [hP]
      · rw [if_pos (by simp [hP]), Nat.testBit_or, ih,
          Nat.shiftLeft_eq, Nat.one_mul, Nat.testBit_two_pow]
        simp [hP, Nat.lt_succ_self]
    · have hd : decide (j < m + 1) = decide (j < m) := by
        simp only [decide_eq_decide]
        omega
      have hlt : (decide (j < m + 1) && P j) = (decide (j < m) && P j) := by rw [hd]
      rcases hP : P m with _ | _
      · rw [if_neg (by simp [hP]), ih, hlt]
      · rw [if_pos (by simp [hP]), Nat.testBit_or, ih,
          Nat.shiftLeft_eq, Nat.one_mul, Nat.testBit_two_pow, hlt]
        simp [Ne.symm hj]

theorem orBits_lt_two_pow (P : Nat → Bool) (m M : Nat) (h : m ≤ M) :
    orBits P m < 2 ^ M := by
  induction m with
  | zero => exact Nat.pos_pow_of_pos M (by omega)
  | succ m ih =>
    rw [orBits]
    have hm : orBits P m < 2 ^ M := ih (by omega)
    have hp : (1 <<< m) < 2 ^ M := by
      rw [Nat.shiftLeft_eq, Nat.one_mul]
      exact Nat.pow_lt_pow_right (by omega) (by omega)
    rcases hP : P m with _ | _
    · simpa [hP] using hm
    · simpa [hP] using Nat.or_lt_two_pow hm hp

theorem maskNat_lt : ∀ start e : Int, maskNat start e < 2 ^ 256 := by
  intro start e
  exact orBits_lt_two_pow _ 256 256 (le_refl _)

theorem maskNat_testBit (start e : Int) (i : Nat) :
    (maskNat start e).testBit i = (decide (i < 256) && inRange start e i) :=
  orBits_testBit _ 256 i

theorem blockWord_lt_two_pow_32 (start e : Int) (k : Nat) :
    blockWord start e k < 2 ^ 32 :=
  orBits_lt_two_pow _ 32 32 (le_refl _)

theorem blockWord_eq_word_of_maskNat (start e : Int) (k : Nat) (hk : k < 8) :
    blockWord start e k = maskNat start e / 2 ^ (32 * k) % 2 ^ 32 := by
  apply Nat.eq_of_testBit_eq
  intro j
  rw [blockWord, orBits_testBit, ← Nat.shiftRight_eq_div_pow,
    Nat.testBit_mod_two_pow, Nat.testBit_shiftRight, maskNat_testBit]
  rcases Nat.lt_or_ge j 32 with hj | hj
  · have h256 : 32 * k + j < 256 := by omega
    simp [hj, h256]
  · rw [decide_eq_false (by omega : ¬ j < 32), Bool.false_and, Bool.false_and]

/-! ## The loop of `getMask`, block by block -/

theorem foldl_maskStep_partial (start e : Int) (k : Nat) :
    ∀ m, m ≤ 31 → ∀ l : List Nat,
      (List.range' (32 * k) m).foldl (maskStep start e) { cur := 0, l := l } =
        { cur := orBits (fun j => inRange start e (32 * k + j)) m, l := l } := by
  intro m
  induction m with
  | zero => intro _ l; rfl
  | succ m ih =>
    intro hm l
    rw [List.range'_concat, List.foldl_append, ih (by omega) l]
    have hmod : (32 * k + m) % 32 = m := by
      rw [Nat.mul_add_mod, Nat.mod_eq_of_lt (by omega)]
    have hmod1 : (32 * k + m + 1) % 32 = m + 1 := by
      rw [(by omega : 32 * k + m + 1 = 32 * k + (m + 1)),
        Nat.mul_add_mod, Nat.mod_eq_of_lt (by omega)]
    simp only [List.foldl_cons, List.foldl_nil, maskStep, Nat.one_mul, hmod, hmod1]
    rw [if_neg (by omega : ¬ m + 1 = 0), orBits]

theorem foldl_maskStep_block (start e : Int) (k : Nat) (l : List Nat) :
    (List.range' (32 * k) 32).foldl (maskStep start e) { cur := 0, l := l } =
      { cur := 0, l := l ++ [blockWord start e k] } := by
  have hsplit : List.range' (32 * k) 32 = List.range' (32 * k) 31 ++ [32 * k + 31] := by
    have h : List.range' (32 * k) (31 + 1) 1 = List.range' (32 * k) 31 1 ++ [32 * k + 1 * 31] :=
      List.range'_concat (32 * k) 31
    norm_num at h
    exact h
  rw [hsplit, List.foldl_append, foldl_maskStep_partial start e k 31 (by omega) l]
  have hbw : blockWord start e k =
      if inRange start e (32 * k + 31) then
        orBits (fun j => inRange start e (32 * k + j)) 31 ||| 1 <<< 31
      else orBits (fun j => inRange start e (32 * k + j)) 31 := by
    rw [blockWord, (by norm_num : (32 : Nat) = 31 + 1), orBits]
  have hmod : (32 * k + 31) % 32 = 31 := by
    rw [Nat.mul_add_mod]
  have hmod1 : (32 * k + 31 + 1) % 32 = 0 := by
    rw [(by omega : 32 * k + 31 + 1 = 32 * (k + 1)), Nat.mul_mod_right]
  simp only [List.foldl_cons, List.foldl_nil, maskStep, Nat.one_mul, hmod, hmod1, hbw]
  simp

theorem foldl_maskStep_all (start e : Int) :
    ∀ K, (List.range (32 * K)).foldl (maskStep start e) { cur := 0, l := [] } =
      { cur := 0, l := (List.range K).map (blockWord start e) } := by
  intro K
  induction K with
  | zero => rfl
  | succ K ih =>
    have hsplit : List.range (32 * (K + 1)) =
        List.range (32 * K) ++ List.range' (32 * K) 32 := by
      rw [List.range_eq_range', List.range_eq_range',
        (by ring : 32 * (K + 1) = 32 + 32 * K), ← List.range'_append 0 (32 * K) 32 1,
        Nat.zero_add, Nat.one_mul]
    rw [hsplit, List.foldl_append, ih, foldl_maskStep_block, List.range_succ,
      List.map_append, List.map_singleton]

/-- Master lemma: `getMask` renders exactly the 256-bit range mask. -/
theorem getMask_eq_renderMask (start e : Int) :
    getMask start e = renderMask256 (maskNat start e) := by
  show sjoin ","
      (((List.range 256).foldl (maskStep start e) { cur := 0, l := [] }).l.reverse.map hex8) =
    renderMask256 (maskNat start e)
  rw [(by norm_num : (256 : Nat) = 32 * 8), foldl_maskStep_all, renderMask256]
  have hmaps : List.map (hex8 ∘ blockWord start e) (List.range 8) =
      List.map (fun k => hex8 (maskNat start e / 2 ^ (32 * k) % 2 ^ 32)) (List.range 8) := by
    apply List.map_congr_left
    intro k hk
    rw [List.mem_range] at hk
    simp only [Function.comp_apply]
    rw [blockWord_eq_word_of_maskNat start e k hk]
  rw [List.map_reverse, List.map_map, hmaps]

/-! ## Mask values of the ranges the script uses -/

theorem maskNat_eq_zero (start e : Int) (h : e < start ∨ 256 ≤ start) :
    maskNat start e = 0 := by
  apply Nat.eq_of_testBit_eq
  intro i
  rw [maskNat_testBit, Nat.zero_testBit, inRange]
  rcases Nat.lt_or_ge i 256 with hi | hi
  · rw [decide_eq_false (by omega : ¬ ((start : Int) ≤ (i : Int) ∧ (i : Int) ≤ e)),
      Bool.and_false]
  · rw [decide_eq_false (by omega : ¬ i < 256), Bool.false_and]

theorem maskNat_two_pow_sub_one (c : Nat) (h1 : 1 ≤ c) (h2 : c ≤ 256) :
    maskNat 0 ((c : Int) - 1) = 2 ^ c - 1 := by
  apply Nat.eq_of_testBit_eq
  intro i
  rw [maskNat_testBit, Nat.testBit_two_pow_sub_one, inRange]
  rcases Nat.lt_or_ge i c with hi | hi
  · rw [decide_eq_true (by omega : i < 256), decide_eq_true (by omega : i < c),
      decide_eq_true (by omega : (0 : Int) ≤ (i : Int) ∧ (i : Int) ≤ (c : Int) - 1),
      Bool.true_and]
  · rw [decide_eq_false (by omega : ¬ i < c),
      decide_eq_false (by omega : ¬ ((0 : Int) ≤ (i : Int) ∧ (i : Int) ≤ (c : Int) - 1)),
      Bool.and_false]

theorem maskNat_single (c : Nat) (h : c ≤ 255) :
    maskNat (c : Int) (c : Int) = 2 ^ c := by
  apply Nat.eq_of_testBit_eq
  intro i
  rw [maskNat_testBit, Nat.testBit_two_pow, inRange]
  by_cases hi : i = c
  · subst hi
    rw [decide_eq_true (by omega : i < 256), decide_eq_true rfl,
      decide_eq_true (by omega : ((i : Int) ≤ (i : Int) ∧ (i : Int) ≤ (i : Int))),
      Bool.true_and]
  · rw [decide_eq_false (show ¬ (c = i) from fun h => hi h.symm),
      decide_eq_false (by omega : ¬ ((c : Int) ≤ (i : Int) ∧ (i : Int) ≤ (c : Int))),
      Bool.and_false]

/-! ## The builder

`genPatchRoot.py` after option parsing: validate `ncpus`, the destination
and the positional arguments, then emit the tree.  We embed the run as a
pure function producing the ordered list of filesystem actions performed
and the error it stopped with (if a precondition check failed).  The
destination-existence test `os.path.exists(root)` is an input bit
`destExists`; directory creation is assumed to succeed (an `IOError` from
the operating system is outside the embedding). -/

/-- Modelled from the spec: the two externally supplied substitution
templates (`cpuinfo.template` and `stat.template`).  The template files are
not part of the reviewed sources; the specification treats them as "opaque
external resources" with named placeholders.  `cpuinfoRendered ncpus` is the
full content of `proc/cpuinfo` (the per-core records, instantiated with
`CPU`/`NCPUS` and concatenated by the Python 2 `print >>f, record,`
statements, whose inter-record separator depends on the template's trailing
whitespace); `statRendered s` is `stat.template` with `$CPUSTAT` replaced by
`s`. -/
structure Templates where
  cpuinfoRendered : Int → String
  statRendered : String → String

/-- The precondition failures of the script (each is a diagnostic print
followed by `sys.exit(1)`). -/
inductive BuildError where
  /-- `ncpus < 1`: "ERROR: Need >= 1 cpus!". -/
  | invalidArgument : BuildError
  /-- destination exists and `--force` not given: "ERROR: Dir already exists". -/
  | destinationExists : BuildError
  /-- extra positional arguments: "ERROR: No positional arguments taken". -/
  | positionalArguments : BuildError
deriving Repr, DecidableEq

/-- One filesystem mutation performed by the script (each is a shell
command in the original: `mkdir -p`, `echo … > path`, `ln -s`, `cp -r`,
`chmod a-w -R`). -/
inductive FsAction where
  | mkdirp : String → FsAction
  | write : String → String → FsAction
  | symlink : String → String → FsAction
  | copyTree : String → String → FsAction
  | chmodReadOnly : String → FsAction
deriving Repr, DecidableEq

/-- `echo s > f` writes `s` followed by a newline. -/
def echo (s : String) : String := s ++ "\n"

/-- `cpuList = "0-" + str(ncpus-1) if ncpus > 1 else "0"`. -/
def cpuList (ncpus : Int) : String :=
  if ncpus > 1 then "0-" ++ toString (ncpus - 1) else "0"

/-- `maxCpus = max(ncpus, 255)`. -/
def maxCpus (ncpus : Int) : Int := max ncpus 255

/-- `coreSiblingsMask = getMask(0, ncpus)`.  (Note: the upper bound is
`ncpus`, not `ncpus - 1`.) -/
def coreSiblingsMask (ncpus : Int) : String := getMask 0 ncpus

/-- The fixed baseline activity-counter vector of `proc/stat`:
`cpuAct = [int(x) for x in "665084 119979939 9019834 399242499 472611 20 159543 0 0 0".split(" ")]`. -/
def cpuAct : List Int :=
  [665084, 119979939, 9019834, 399242499, 472611, 20, 159543, 0, 0, 0]

/-- The `CPUSTAT` string substituted into `stat.template`: the aggregate
line `"cpu  " + " ".join(str(x*ncpus) ...)` followed, one per core, by
`"\ncpu<c> " + " ".join(str(x) ...)`. -/
def cpuStat (ncpus : Int) : String :=
  (List.range ncpus.toNat).foldl
    (fun s c => s ++ ("\ncpu" ++ Nat.repr c ++ " ") ++
      sjoin " " (cpuAct.map fun x => toString x))
    ("cpu  " ++ sjoin " " (cpuAct.map fun x => toString (x * ncpus)))

/-- The diagnostic printed (once per core) when the topology loop runs with
more than 255 cpus. -/
def x2apicWarning : String :=
  "WARN: These many cpus have not been tested, x2APIC systems may be different..."

/-- `cpuDir = root + "/sys/devices/system/cpu/"`. -/
def cpuDir (root : String) : String := root ++ "/sys/devices/system/cpu/"

/-- The per-core topology directory `cpuDir + "cpu" + str(cpu) + "/" + "topology/"`. -/
def topoDir (root : String) (c : Nat) : String :=
  cpuDir root ++ "cpu" ++ Nat.repr c ++ "/topology/"

/-- `nodeDir = root + "/sys/devices/system/node/"`. -/
def nodeDir (root : String) : String := root ++ "/sys/devices/system/node/"

/-- `n0Dir = nodeDir + "node0/"`. -/
def n0Dir (root : String) : String := nodeDir root ++ "node0/"

/-- The body of the per-core topology loop, for core `c`. -/
def cpuTopoActions (root : String) (ncpus : Int) (c : Nat) : List FsAction :=
  [ .mkdirp (topoDir root c),
    .write (topoDir root c ++ "core_id") (echo (Nat.repr c)),
    .write (topoDir root c ++ "core_siblings_list") (echo (cpuList ncpus)),
    .write (topoDir root c ++ "thread_siblings_list") (echo (Nat.repr c)),
    .write (topoDir root c ++ "physical_package_id") (echo "0"),
    .write (topoDir root c ++ "core_siblings") (echo (coreSiblingsMask ncpus)),
    .write (topoDir root c ++ "thread_siblings") (echo (getMask (c : Int) (c : Int))),
    .write (topoDir root c ++ "online") (echo "1") ]

/-- The full ordered action sequence of a run that passed the precondition
checks.  `progDir` is the directory of the script (source of the templates
and of `nodeFiles`). -/
def buildActions (tpl : Templates) (ncpus : Int) (root progDir : String)
    (force : Bool) : List FsAction :=
  [ .mkdirp root,
    .mkdirp (root ++ "/proc"),
    .write (root ++ "/proc/cpuinfo") (tpl.cpuinfoRendered ncpus),
    .write (root ++ "/proc/stat") (tpl.statRendered (cpuStat ncpus)),
    .mkdirp (cpuDir root),
    .write (cpuDir root ++ "online") (echo (cpuList ncpus)),
    .write (cpuDir root ++ "possible") (echo (cpuList ncpus)),
    .write (cpuDir root ++ "present") (echo (cpuList ncpus)),
    .write (cpuDir root ++ "offline") "\n",
    .write (cpuDir root ++ "sched_mc_power_savings") (echo "0"),
    .write (cpuDir root ++ "kernel_max") (echo (toString (maxCpus ncpus))) ]
  ++ (List.range ncpus.toNat).flatMap (cpuTopoActions root ncpus)
  ++ [ .mkdirp (nodeDir root),
       .write (nodeDir root ++ "has_normal_memory") (echo "0"),
       .write (nodeDir root ++ "online") (echo "0"),
       .write (nodeDir root ++ "possible") (echo "0"),
       .write (nodeDir root ++ "has_cpu") "\n",
       .mkdirp (n0Dir root) ]
  ++ (List.range ncpus.toNat).map
       (fun c => .symlink (cpuDir root ++ "cpu" ++ Nat.repr c) (n0Dir root))
  ++ [ .copyTree (progDir ++ "nodeFiles") (n0Dir root),
       .write (n0Dir root ++ "cpumap") (echo (coreSiblingsMask ncpus)),
       .write (n0Dir root ++ "cpulist") (echo (cpuList ncpus)),
       .mkdirp (root ++ "/sys/bus/pci/devices") ]
  ++ (if force then [] else [ .chmodReadOnly root ])

/-- The outcome of a run: the filesystem actions performed in order, the
error the run stopped with (`none` on success), and the warning lines
printed. -/
structure BuildResult where
  actions : List FsAction
  error : Option BuildError
  warns : List String
deriving Repr

/-- A run of the script: the three precondition checks, in source order
(`ncpus < 1`, then destination existence without `--force`, then stray
positional arguments), each exiting before any filesystem action; then the
tree emission.  The x2APIC warning is printed inside the per-core loop,
once per core, whenever `maxCpus > 255`. -/
def buildRun (tpl : Templates) (ncpus : Int) (root progDir : String)
    (force destExists : Bool) (args : List String) : BuildResult :=
  if ncpus < 1 then
    { actions := [], error := some .invalidArgument, warns := [] }
  else if destExists && !force then
    { actions := [], error := some .destinationExists, warns := [] }
  else if args.length > 0 then
    { actions := [], error := some .positionalArguments, warns := [] }
  else
    { actions := buildActions tpl ncpus root progDir force,
      error := none,
      warns := (List.range ncpus.toNat).flatMap
        (fun _ => if maxCpus ncpus > 255 then [x2apicWarning] else []) }

/-! ## Semantics of the actions

A filesystem is a map from paths to file contents; a `write` replaces the
content at its path (the shell `>` redirection truncates), the other
actions do not change any file's content (`mkdir -p` and `cp -r` of the
same fixed source are reproducible, and `ln -s` of an already-present
identical link leaves it as it is). -/

/-- File contents after one action. -/
def applyAction (fs : String → Option String) : FsAction → String → Option String
  | .write p c => fun q => if q = p then some c else fs q
  | _ => fs

/-- File contents after a sequence of actions. -/
def applyActions (fs : String → Option String) (l : List FsAction) :
    String → Option String :=
  l.foldl applyAction fs

/-- One step of the search for the last `write` to `p`. -/
def lwStep (p : String) (acc : Option String) : FsAction → Option String
  | .write q c => if p = q then some c else acc
  | _ => acc

/-- The content of the last `write` to `p` in `l`, if any. -/
def lastWrite (l : List FsAction) (p : String) : Option String :=
  l.foldl (lwStep p) none

/-- The content of the file at `p` after running `l` on an empty
filesystem. -/
def fileContent (l : List FsAction) (p : String) : Option String :=
  applyActions (fun _ => none) l p

/-! ## Facts about the action semantics -/

theorem foldl_lwStep_init (p : String) :
    ∀ (l : List FsAction) (i : Option String),
      l.foldl (lwStep p) i =
        match l.foldl (lwStep p) none with
        | some c => some c
        | none => i := by
  intro l
  induction l with
  | nil => intro i; rfl
  | cons a l ih =>
    intro i
    rw [List.foldl_cons, List.foldl_cons, ih (lwStep p i a), ih (lwStep p none a)]
    cases h : l.foldl (lwStep p) none with
    | some c => rfl
    | none =>
      cases a with
      | write q c =>
        by_cases hq : p = q <;> simp [lwStep, hq]
      | mkdirp q => simp [lwStep]
      | symlink q r => simp [lwStep]
      | copyTree q r => simp [lwStep]
      | chmodReadOnly q => simp [lwStep]

theorem lastWrite_append (l₁ l₂ : List FsAction) (p : String) :
    lastWrite (l₁ ++ l₂) p =
      match lastWrite l₂ p with
      | some c => some c
      | none => lastWrite l₁ p := by
  rw [lastWrite, List.foldl_append]
  exact foldl_lwStep_init p l₂ (lastWrite l₁ p)

theorem applyActions_eq_lastWrite (l : List FsAction) :
    ∀ (fs : String → Option String) (p : String),
      applyActions fs l p =
        match lastWrite l p with
        | some c => some c
        | none => fs p := by
  induction l with
  | nil => intro fs p; rfl
  | cons a l ih =>
    intro fs p
    have hstep : applyActions fs (a :: l) p = applyActions (applyAction fs a) l p := rfl
    rw [hstep, ih (applyAction fs a) p]
    have hcons : lastWrite (a :: l) p =
        match lastWrite l p with
        | some c => some c
        | none => lwStep p none a := by
      rw [lastWrite, List.foldl_cons]
      exact foldl_lwStep_init p l (lwStep p none a)
    rw [hcons]
    cases h : lastWrite l p with
    | some c => rfl
    | none =>
      cases a with
      | write q c =>
        by_cases hq : p = q <;> simp [applyAction, lwStep, hq]
      | mkdirp q => simp [applyAction, lwStep]
      | symlink q r => simp [applyAction, lwStep]
      | copyTree q r => simp [applyAction, lwStep]
      | chmodReadOnly q => simp [applyAction, lwStep]

theorem fileContent_eq_lastWrite (l : List FsAction) (p : String) :
    fileContent l p = lastWrite l p := by
  rw [fileContent, applyActions_eq_lastWrite]
  cases lastWrite l p with
  | some c => rfl
  | none => rfl

/-- Replaying the same action sequence over its own result changes
nothing: every path ends at the content of its last write either way. -/
theorem applyActions_replay (fs : String → Option String) (l : List FsAction) :
    applyActions (applyActions fs l) l = applyActions fs l := by
  funext p
  conv_lhs => rw [applyActions_eq_lastWrite]
  cases h : lastWrite l p with
  | some c => rw [applyActions_eq_lastWrite, h]
  | none => rfl

theorem lastWrite_eq_none (l : List FsAction) (p : String)
    (h : ∀ q c, FsAction.write q c ∈ l → q ≠ p) : lastWrite l p = none := by
  induction l with
  | nil => rfl
  | cons a l ih =>
    have hcons : lastWrite (a :: l) p =
        match lastWrite l p with
        | some c => some c
        | none => lwStep p none a := by
      rw [lastWrite, List.foldl_cons]
      exact foldl_lwStep_init p l (lwStep p none a)
    rw [hcons, ih (fun q c hm => h q c (List.mem_cons_of_mem a hm))]
    cases a with
    | write q c =>
      have hq : q ≠ p := h q c (List.mem_cons_self _ _)
      have hpq : ¬ p = q := fun e => hq e.symm
      simp [lwStep, hpq]
    | mkdirp q => rfl
    | symlink q r => rfl
    | copyTree q r => rfl
    | chmodReadOnly q => rfl

/-! ## The decimal rendering of core indices

The per-core paths embed `str(cpu)`, i.e. `Nat.repr cpu`.  To tell the
paths of different cores apart we characterise `Nat.repr`: its characters
are decimal digits (so none is `'/'`), and it is injective. -/

/-- Reference decimal rendering: most significant digit first. -/
def natToChars (n : Nat) : List Char :=
  if n < 10 then [Nat.digitChar n]
  else natToChars (n / 10) ++ [Nat.digitChar (n % 10)]
decreasing_by exact Nat.div_lt_self (by omega) (by omega)

theorem natToChars_of_lt (n : Nat) (h : n < 10) : natToChars n = [Nat.digitChar n] := by
  rw [natToChars]
  simp [h]

theorem natToChars_of_ge (n : Nat) (h : ¬ n < 10) :
    natToChars n = natToChars (n / 10) ++ [Nat.digitChar (n % 10)] := by
  rw [natToChars]
  simp [h]

theorem toDigitsCore_eq_natToChars :
    ∀ (fuel n : Nat) (ds : List Char), n < fuel →
      Nat.toDigitsCore 10 fuel n ds = natToChars n ++ ds := by
  intro fuel
  induction fuel with
  | zero => intro n ds h; omega
  | succ fuel ih =>
    intro n ds h
    rw [Nat.toDigitsCore]
    by_cases h10 : n / 10 = 0
    · rw [if_pos h10, natToChars_of_lt n (by omega), Nat.mod_eq_of_lt (by omega)]
      rfl
    · rw [if_neg h10, ih (n / 10) _ (by omega), natToChars_of_ge n (by omega),
        List.append_assoc]
      rfl

theorem repr_data_eq_natToChars (n : Nat) : (Nat.repr n).data = natToChars n := by
  have h1 : (Nat.repr n).data = Nat.toDigits 10 n := rfl
  have h2 : Nat.toDigits 10 n = Nat.toDigitsCore 10 (n + 1) n [] := rfl
  rw [h1, h2, toDigitsCore_eq_natToChars (n + 1) n [] (by omega), List.append_nil]

theorem natToChars_ne_nil (n : Nat) : natToChars n ≠ [] := by
  by_cases h : n < 10
  · rw [natToChars_of_lt n h]
    simp
  · rw [natToChars_of_ge n h]
    simp

theorem digitChar_isDigit_of_lt : ∀ d, d < 10 → (Nat.digitChar d).isDigit = true := by
  decide

theorem digitChar_inj_of_lt :
    ∀ a, a < 10 → ∀ b, b < 10 → Nat.digitChar a = Nat.digitChar b → a = b := by
  decide

theorem natToChars_isDigit (n : Nat) : ∀ ch ∈ natToChars n, ch.isDigit = true := by
  induction n using Nat.strong_induction_on with
  | _ n ih =>
    by_cases h : n < 10
    · rw [natToChars_of_lt n h]
      intro ch hch
      rw [List.mem_singleton] at hch
      subst hch
      exact digitChar_isDigit_of_lt n h
    · rw [natToChars_of_ge n h]
      intro ch hch
      rcases List.mem_append.mp hch with hch | hch
      · exact ih (n / 10) (Nat.div_lt_self (by omega) (by omega)) ch hch
      · rw [List.mem_singleton] at hch
        subst hch
        exact digitChar_isDigit_of_lt _ (Nat.mod_lt n (by omega))

theorem natToChars_inj : ∀ m, ∀ n, natToChars m = natToChars n → m = n := by
  intro m
  induction m using Nat.strong_induction_on with
  | _ m ih =>
    intro n h
    by_cases hm : m < 10 <;> by_cases hn : n < 10
    · rw [natToChars_of_lt m hm, natToChars_of_lt n hn] at h
      exact digitChar_inj_of_lt m hm n hn (List.singleton_injective h)
    · rw [natToChars_of_lt m hm, natToChars_of_ge n hn] at h
      have hlen := congrArg List.length h
      simp at hlen
      exact absurd hlen (natToChars_ne_nil _)
    · rw [natToChars_of_ge m hm, natToChars_of_lt n hn] at h
      have hlen := congrArg List.length h
      simp at hlen
      exact absurd hlen (natToChars_ne_nil _)
    · rw [natToChars_of_ge m hm, natToChars_of_ge n hn] at h
      obtain ⟨h1, h2⟩ := List.append_inj' h (by simp)
      have hdiv : m / 10 = n / 10 :=
        ih (m / 10) (Nat.div_lt_self (by omega) (by omega)) (n / 10) h1
      have hmod : m % 10 = n % 10 :=
        digitChar_inj_of_lt _ (Nat.mod_lt m (by omega)) _ (Nat.mod_lt n (by omega))
          (List.singleton_injective h2)
      omega

theorem natRepr_inj (m n : Nat) (h : Nat.repr m = Nat.repr n) : m = n := by
  apply natToChars_inj
  rw [← repr_data_eq_natToChars, ← repr_data_eq_natToChars, h]

theorem natRepr_no_slash (n : Nat) : ∀ ch ∈ (Nat.repr n).data, ch ≠ '/' := by
  intro ch hch he
  have hd : ch.isDigit = true := by
    rw [repr_data_eq_natToChars] at hch
    exact natToChars_isDigit n ch hch
  subst he
  exact absurd hd (by decide)

/-- Lists without `'/'` followed by a `'/'`-separated tail form a prefix
code: equal concatenations force equal parts. -/
theorem noSlash_sep_inj :
    ∀ (A B t₁ t₂ : List Char), (∀ ch ∈ A, ch ≠ '/') → (∀ ch ∈ B, ch ≠ '/') →
      A ++ '/' :: t₁ = B ++ '/' :: t₂ → A = B ∧ t₁ = t₂ := by
  intro A
  induction A with
  | nil =>
    intro B t₁ t₂ _ hB h
    cases B with
    | nil =>
      simp only [List.nil_append, List.cons.injEq] at h
      exact ⟨rfl, h.2⟩
    | cons b B =>
      simp only [List.nil_append, List.cons_append, List.cons.injEq] at h
      exact absurd h.1.symm (hB b (List.mem_cons_self _ _))
  | cons a A ihA =>
    intro B t₁ t₂ hA hB h
    cases B with
    | nil =>
      simp only [List.cons_append, List.nil_append, List.cons.injEq] at h
      exact absurd h.1 (hA a (List.mem_cons_self _ _))
    | cons b B =>
      simp only [List.cons_append, List.cons.injEq] at h
      obtain ⟨h1, h2⟩ := ihA B t₁ t₂
        (fun ch hch => hA ch (List.mem_cons_of_mem a hch))
        (fun ch hch => hB ch (List.mem_cons_of_mem b hch)) h.2
      exact ⟨by rw [h.1, h1], h2⟩

/-- Distinct cores have distinct topology paths, and within one core the
file name is determined: the `"cpu" ++ str(cpu) ++ "/"` components form a
prefix code. -/
theorem topoDir_append_inj (root : String) (c d : Nat) (n₁ n₂ : String)
    (h : topoDir root c ++ n₁ = topoDir root d ++ n₂) : c = d ∧ n₁ = n₂ := by
  have hd := congrArg String.data h
  simp only [topoDir, cpuDir, String.data_append, List.append_assoc] at hd
  have hd2 := List.append_cancel_left (List.append_cancel_left (List.append_cancel_left hd))
  have hsep : (Nat.repr c).data ++ '/' :: (("topology/" : String).data ++ n₁.data)
      = (Nat.repr d).data ++ '/' :: (("topology/" : String).data ++ n₂.data) := by
    have hto : (['/', 't', 'o', 'p', 'o', 'l', 'o', 'g', 'y', '/'] : List Char)
        = '/' :: ("topology/" : String).data := rfl
    rw [hto] at hd2
    simpa only [List.cons_append, List.append_assoc] using hd2
  obtain ⟨h1, h2⟩ := noSlash_sep_inj _ _ _ _ (natRepr_no_slash c) (natRepr_no_slash d) hsep
  refine ⟨natRepr_inj c d (String.ext h1), ?_⟩
  have h3 := List.append_cancel_left h2
  exact String.ext h3

/-! ## Distinctness of the generated paths -/

theorem topoDirFile_eq (root : String) (c : Nat) (n : String) :
    topoDir root c ++ n =
      cpuDir root ++ ("cpu" ++ (Nat.repr c ++ ("/topology/" ++ n))) := by
  rw [topoDir, String.append_assoc, String.append_assoc, String.append_assoc]

theorem n0DirFile_eq (root : String) (n : String) :
    n0Dir root ++ n = nodeDir root ++ ("node0/" ++ n) := by
  rw [n0Dir, String.append_assoc]

theorem cpuDir_append_ne (root : String) (a b : String) (h : a.data ≠ b.data) :
    cpuDir root ++ a ≠ cpuDir root ++ b := by
  intro he
  have hd := congrArg String.data he
  simp only [cpuDir, String.data_append, List.append_assoc] at hd
  exact h (List.append_cancel_left (List.append_cancel_left hd))

theorem nodeDir_append_ne (root : String) (a b : String) (h : a.data ≠ b.data) :
    nodeDir root ++ a ≠ nodeDir root ++ b := by
  intro he
  have hd := congrArg String.data he
  simp only [nodeDir, String.data_append, List.append_assoc] at hd
  exact h (List.append_cancel_left (List.append_cancel_left hd))

theorem cpuDir_ne_nodeDir (root : String) (a b : String) :
    cpuDir root ++ a ≠ nodeDir root ++ b := by
  intro he
  have hd := congrArg String.data he
  simp only [cpuDir, nodeDir, String.data_append, List.append_assoc] at hd
  have hd2 := List.append_cancel_left hd
  simp at hd2

theorem procCpuinfo_ne_cpuDir (root : String) (a : String) :
    root ++ "/proc/cpuinfo" ≠ cpuDir root ++ a := by
  intro he
  have hd := congrArg String.data he
  simp only [cpuDir, String.data_append, List.append_assoc] at hd
  have hd2 := List.append_cancel_left hd
  simp at hd2

theorem procStat_ne_cpuDir (root : String) (a : String) :
    root ++ "/proc/stat" ≠ cpuDir root ++ a := by
  intro he
  have hd := congrArg String.data he
  simp only [cpuDir, String.data_append, List.append_assoc] at hd
  have hd2 := List.append_cancel_left hd
  simp at hd2

theorem procCpuinfo_ne_nodeDir (root : String) (a : String) :
    root ++ "/proc/cpuinfo" ≠ nodeDir root ++ a := by
  intro he
  have hd := congrArg String.data he
  simp only [nodeDir, String.data_append, List.append_assoc] at hd
  have hd2 := List.append_cancel_left hd
  simp at hd2

theorem procStat_ne_nodeDir (root : String) (a : String) :
    root ++ "/proc/stat" ≠ nodeDir root ++ a := by
  intro he
  have hd := congrArg String.data he
  simp only [nodeDir, String.data_append, List.append_assoc] at hd
  have hd2 := List.append_cancel_left hd
  simp at hd2

theorem procStat_ne_procCpuinfo (root : String) :
    root ++ "/proc/stat" ≠ root ++ "/proc/cpuinfo" := by
  intro he
  have hd := congrArg String.data he
  simp only [String.data_append] at hd
  have hd2 := List.append_cancel_left hd
  simp at hd2

theorem topoDirFile_ne (root : String) (c : Nat) (n₁ n₂ : String) (h : n₁ ≠ n₂) :
    topoDir root c ++ n₁ ≠ topoDir root c ++ n₂ :=
  fun he => h (topoDir_append_inj root c c n₁ n₂ he).2

theorem topoDir_ne_of_core_ne (root : String) (c d : Nat) (n₁ n₂ : String) (h : c ≠ d) :
    topoDir root c ++ n₁ ≠ topoDir root d ++ n₂ :=
  fun he => h (topoDir_append_inj root c d n₁ n₂ he).1

theorem topoFile_ne_online (root : String) (c : Nat) (n : String) :
    topoDir root c ++ n ≠ cpuDir root ++ "online" := by
  intro he
  have hd := congrArg String.data he
  simp only [topoDir, cpuDir, String.data_append, List.append_assoc] at hd
  have hd2 := List.append_cancel_left (List.append_cancel_left hd)
  simp at hd2

theorem topoFile_ne_possible (root : String) (c : Nat) (n : String) :
    topoDir root c ++ n ≠ cpuDir root ++ "possible" := by
  intro he
  have hd := congrArg String.data he
  simp only [topoDir, cpuDir, String.data_append, List.append_assoc] at hd
  have hd2 := List.append_cancel_left (List.append_cancel_left hd)
  simp at hd2

theorem topoFile_ne_present (root : String) (c : Nat) (n : String) :
    topoDir root c ++ n ≠ cpuDir root ++ "present" := by
  intro he
  have hd := congrArg String.data he
  simp only [topoDir, cpuDir, String.data_append, List.append_assoc] at hd
  have hd2 := List.append_cancel_left (List.append_cancel_left hd)
  simp at hd2

theorem topoFile_ne_kernel_max (root : String) (c : Nat) (n : String) :
    topoDir root c ++ n ≠ cpuDir root ++ "kernel_max" := by
  intro he
  have hd := congrArg String.data he
  simp only [topoDir, cpuDir, String.data_append, List.append_assoc] at hd
  have hd2 := List.append_cancel_left (List.append_cancel_left hd)
  simp at hd2

theorem topoFile_ne_procStat (root : String) (c : Nat) (n : String) :
    topoDir root c ++ n ≠ root ++ "/proc/stat" := by
  intro he
  have hd := congrArg String.data he
  simp only [topoDir, cpuDir, String.data_append, List.append_assoc] at hd
  have hd2 := List.append_cancel_left hd
  simp at hd2

theorem topoFile_ne_procCpuinfo (root : String) (c : Nat) (n : String) :
    topoDir root c ++ n ≠ root ++ "/proc/cpuinfo" := by
  intro he
  have hd := congrArg String.data he
  simp only [topoDir, cpuDir, String.data_append, List.append_assoc] at hd
  have hd2 := List.append_cancel_left hd
  simp at hd2

/-! ## Locating writes inside the emitted action sequence -/

theorem lastWrite_append_none (l₁ l₂ : List FsAction) (p : String)
    (h : lastWrite l₂ p = none) : lastWrite (l₁ ++ l₂) p = lastWrite l₁ p := by
  rw [lastWrite_append, h]

theorem lastWrite_append_some (l₁ l₂ : List FsAction) (p : String) (c : String)
    (h : lastWrite l₂ p = some c) : lastWrite (l₁ ++ l₂) p = some c := by
  rw [lastWrite_append, h]

theorem lastWrite_chmod_none (force : Bool) (root : String) (p : String) :
    lastWrite (if force then [] else [FsAction.chmodReadOnly root]) p = none := by
  cases force <;> rfl

theorem lastWrite_symlinks_none (n : Nat) (f : Nat → String) (d : String) (p : String) :
    lastWrite ((List.range n).map fun c => FsAction.symlink (f c) d) p = none := by
  apply lastWrite_eq_none
  intro q c hm
  rw [List.mem_map] at hm
  obtain ⟨a, -, he⟩ := hm
  exact FsAction.noConfusion he

theorem lastWrite_tail_seg_none (root progDir : String) (m l : String) (p : String)
    (h1 : ¬ p = n0Dir root ++ "cpumap") (h2 : ¬ p = n0Dir root ++ "cpulist") :
    lastWrite [FsAction.copyTree (progDir ++ "nodeFiles") (n0Dir root),
      FsAction.write (n0Dir root ++ "cpumap") m,
      FsAction.write (n0Dir root ++ "cpulist") l,
      FsAction.mkdirp (root ++ "/sys/bus/pci/devices")] p = none := by
  simp only [lastWrite, List.foldl_cons, List.foldl_nil, lwStep]
  rw [if_neg h2, if_neg h1]

theorem lastWrite_node_seg_none (root : String) (p : String)
    (h1 : ¬ p = nodeDir root ++ "has_normal_memory")
    (h2 : ¬ p = nodeDir root ++ "online")
    (h3 : ¬ p = nodeDir root ++ "possible")
    (h4 : ¬ p = nodeDir root ++ "has_cpu") :
    lastWrite [FsAction.mkdirp (nodeDir root),
      FsAction.write (nodeDir root ++ "has_normal_memory") (echo "0"),
      FsAction.write (nodeDir root ++ "online") (echo "0"),
      FsAction.write (nodeDir root ++ "possible") (echo "0"),
      FsAction.write (nodeDir root ++ "has_cpu") "\n",
      FsAction.mkdirp (n0Dir root)] p = none := by
  simp only [lastWrite, List.foldl_cons, List.foldl_nil, lwStep]
  rw [if_neg h4, if_neg h3, if_neg h2, if_neg h1]

theorem lastWrite_cpuTopo_flatMap_none (root : String) (ncpus : Int) (L : List Nat)
    (p : String) (h : ∀ c' ∈ L, ∀ n : String, topoDir root c' ++ n ≠ p) :
    lastWrite (L.flatMap (cpuTopoActions root ncpus)) p = none := by
  apply lastWrite_eq_none
  intro q c hm
  rw [List.mem_flatMap] at hm
  obtain ⟨c', hc', hmem⟩ := hm
  simp only [cpuTopoActions, List.mem_cons, List.not_mem_nil, or_false] at hmem
  rcases hmem with h1|h1|h1|h1|h1|h1|h1|h1
  · exact FsAction.noConfusion h1
  · injection h1 with hq hc
    subst hq
    exact h c' hc' _
  · injection h1 with hq hc
    subst hq
    exact h c' hc' _
  · injection h1 with hq hc
    subst hq
    exact h c' hc' _
  · injection h1 with hq hc
    subst hq
    exact h c' hc' _
  · injection h1 with hq hc
    subst hq
    exact h c' hc' _
  · injection h1 with hq hc
    subst hq
    exact h c' hc' _
  · injection h1 with hq hc
    subst hq
    exact h c' hc' _

theorem n0Dir_append_ne (root : String) (a b : String) (h : a.data ≠ b.data) :
    n0Dir root ++ a ≠ n0Dir root ++ b := by
  intro he
  have hd := congrArg String.data he
  simp only [n0Dir, nodeDir, String.data_append, List.append_assoc] at hd
  exact h (List.append_cancel_left (List.append_cancel_left (List.append_cancel_left hd)))

/-- Inside one core's topology group, the `thread_siblings` write. -/
theorem lastWrite_group_thread_siblings (root : String) (ncpus : Int) (c : Nat) :
    lastWrite (cpuTopoActions root ncpus c) (topoDir root c ++ "thread_siblings") =
      some (echo (getMask (c : Int) (c : Int))) := by
  simp only [cpuTopoActions, lastWrite, List.foldl_cons, List.foldl_nil, lwStep]
  rw [if_neg (topoDirFile_ne root c _ _ (by decide))]
  simp

/-- Inside one core's topology group, the `core_siblings` write. -/
theorem lastWrite_group_core_siblings (root : String) (ncpus : Int) (c : Nat) :
    lastWrite (cpuTopoActions root ncpus c) (topoDir root c ++ "core_siblings") =
      some (echo (coreSiblingsMask ncpus)) := by
  simp only [cpuTopoActions, lastWrite, List.foldl_cons, List.foldl_nil, lwStep]
  rw [if_neg (topoDirFile_ne root c _ _ (by decide)),
    if_neg (topoDirFile_ne root c _ _ (by decide))]
  simp

/-- Inside one core's topology group, the `core_siblings_list` write. -/
theorem lastWrite_group_core_siblings_list (root : String) (ncpus : Int) (c : Nat) :
    lastWrite (cpuTopoActions root ncpus c) (topoDir root c ++ "core_siblings_list") =
      some (echo (cpuList ncpus)) := by
  simp only [cpuTopoActions, lastWrite, List.foldl_cons, List.foldl_nil, lwStep]
  rw [if_neg (topoDirFile_ne root c _ _ (by decide)),
    if_neg (topoDirFile_ne root c _ _ (by decide)),
    if_neg (topoDirFile_ne root c _ _ (by decide)),
    if_neg (topoDirFile_ne root c _ _ (by decide)),
    if_neg (topoDirFile_ne root c _ _ (by decide))]
  simp

/-- A topology file of core `c`, looked up across the whole per-core loop:
the groups of the other cores never write it, the group of `c` writes it
with the same content at every visit. -/
theorem lastWrite_flatMap_group (root : String) (ncpus : Int) (L : List Nat) (c : Nat)
    (hc : c ∈ L) (nm : String) (v : String)
    (hgroup : lastWrite (cpuTopoActions root ncpus c) (topoDir root c ++ nm) = some v) :
    lastWrite (L.flatMap (cpuTopoActions root ncpus)) (topoDir root c ++ nm) = some v := by
  induction L with
  | nil => cases hc
  | cons a L ih =>
    rw [List.flatMap_cons, lastWrite_append]
    by_cases hcL : c ∈ L
    · rw [ih hcL]
    · have hca : c = a := by
        rcases List.mem_cons.mp hc with h | h
        · exact h
        · exact absurd h hcL
      subst hca
      rw [lastWrite_cpuTopo_flatMap_none root ncpus L _
        (fun c' hc' n => topoDir_ne_of_core_ne root c' c n nm
          (fun he => hcL (he ▸ hc')))]
      exact hgroup

/-- `sys/devices/system/cpu/online` over the whole emitted sequence. -/
theorem lastWrite_build_online (tpl : Templates) (ncpus : Int) (root progDir : String)
    (force : Bool) :
    lastWrite (buildActions tpl ncpus root progDir force) (cpuDir root ++ "online") =
      some (echo (cpuList ncpus)) := by
  rw [buildActions,
    lastWrite_append_none _ _ _ (lastWrite_chmod_none force root _),
    lastWrite_append_none _ _ _ (lastWrite_tail_seg_none root progDir _ _ _
      (by rw [n0DirFile_eq]; exact cpuDir_ne_nodeDir root _ _)
      (by rw [n0DirFile_eq]; exact cpuDir_ne_nodeDir root _ _)),
    lastWrite_append_none _ _ _ (lastWrite_symlinks_none _ _ _ _),
    lastWrite_append_none _ _ _ (lastWrite_node_seg_none root _
      (cpuDir_ne_nodeDir root _ _) (cpuDir_ne_nodeDir root _ _)
      (cpuDir_ne_nodeDir root _ _) (cpuDir_ne_nodeDir root _ _)),
    lastWrite_append_none _ _ _ (lastWrite_cpuTopo_flatMap_none root ncpus _ _
      (fun c' _ n => topoFile_ne_online root c' n))]
  simp only [lastWrite, List.foldl_cons, List.foldl_nil, lwStep]
  rw [if_neg (cpuDir_append_ne root _ _ (by decide)),
    if_neg (cpuDir_append_ne root _ _ (by decide)),
    if_neg (cpuDir_append_ne root _ _ (by decide)),
    if_neg (cpuDir_append_ne root _ _ (by decide)),
    if_neg (cpuDir_append_ne root _ _ (by decide))]
  simp

/-- `sys/devices/system/cpu/possible` over the whole emitted sequence. -/
theorem lastWrite_build_possible (tpl : Templates) (ncpus : Int) (root progDir : String)
    (force : Bool) :
    lastWrite (buildActions tpl ncpus root progDir force) (cpuDir root ++ "possible") =
      some (echo (cpuList ncpus)) := by
  rw [buildActions,
    lastWrite_append_none _ _ _ (lastWrite_chmod_none force root _),
    lastWrite_append_none _ _ _ (lastWrite_tail_seg_none root progDir _ _ _
      (by rw [n0DirFile_eq]; exact cpuDir_ne_nodeDir root _ _)
      (by rw [n0DirFile_eq]; exact cpuDir_ne_nodeDir root _ _)),
    lastWrite_append_none _ _ _ (lastWrite_symlinks_none _ _ _ _),
    lastWrite_append_none _ _ _ (lastWrite_node_seg_none root _
      (cpuDir_ne_nodeDir root _ _) (cpuDir_ne_nodeDir root _ _)
      (cpuDir_ne_nodeDir root _ _) (cpuDir_ne_nodeDir root _ _)),
    lastWrite_append_none _ _ _ (lastWrite_cpuTopo_flatMap_none root ncpus _ _
      (fun c' _ n => topoFile_ne_possible root c' n))]
  simp only [lastWrite, List.foldl_cons, List.foldl_nil, lwStep]
  rw [if_neg (cpuDir_append_ne root _ _ (by decide)),
    if_neg (cpuDir_append_ne root _ _ (by decide)),
    if_neg (cpuDir_append_ne root _ _ (by decide)),
    if_neg (cpuDir_append_ne root _ _ (by decide))]
  simp

/-- `sys/devices/system/cpu/present` over the whole emitted sequence. -/
theorem lastWrite_build_present (tpl : Templates) (ncpus : Int) (root progDir : String)
    (force : Bool) :
    lastWrite (buildActions tpl ncpus root progDir force) (cpuDir root ++ "present") =
      some (echo (cpuList ncpus)) := by
  rw [buildActions,
    lastWrite_append_none _ _ _ (lastWrite_chmod_none force root _),
    lastWrite_append_none _ _ _ (lastWrite_tail_seg_none root progDir _ _ _
      (by rw [n0DirFile_eq]; exact cpuDir_ne_nodeDir root _ _)
      (by rw [n0DirFile_eq]; exact cpuDir_ne_nodeDir root _ _)),
    lastWrite_append_none _ _ _ (lastWrite_symlinks_none _ _ _ _),
    lastWrite_append_none _ _ _ (lastWrite_node_seg_none root _
      (cpuDir_ne_nodeDir root _ _) (cpuDir_ne_nodeDir root _ _)
      (cpuDir_ne_nodeDir root _ _) (cpuDir_ne_nodeDir root _ _)),
    lastWrite_append_none _ _ _ (lastWrite_cpuTopo_flatMap_none root ncpus _ _
      (fun c' _ n => topoFile_ne_present root c' n))]
  simp only [lastWrite, List.foldl_cons, List.foldl_nil, lwStep]
  rw [if_neg (cpuDir_append_ne root _ _ (by decide)),
    if_neg (cpuDir_append_ne root _ _ (by decide)),
    if_neg (cpuDir_append_ne root _ _ (by decide))]
  simp

/-- `sys/devices/system/cpu/kernel_max` over the whole emitted sequence. -/
theorem lastWrite_build_kernel_max (tpl : Templates) (ncpus : Int) (root progDir : String)
    (force : Bool) :
    lastWrite (buildActions tpl ncpus root progDir force) (cpuDir root ++ "kernel_max") =
      some (echo (toString (maxCpus ncpus))) := by
  rw [buildActions,
    lastWrite_append_none _ _ _ (lastWrite_chmod_none force root _),
    lastWrite_append_none _ _ _ (lastWrite_tail_seg_none root progDir _ _ _
      (by rw [n0DirFile_eq]; exact cpuDir_ne_nodeDir root _ _)
      (by rw [n0DirFile_eq]; exact cpuDir_ne_nodeDir root _ _)),
    lastWrite_append_none _ _ _ (lastWrite_symlinks_none _ _ _ _),
    lastWrite_append_none _ _ _ (lastWrite_node_seg_none root _
      (cpuDir_ne_nodeDir root _ _) (cpuDir_ne_nodeDir root _ _)
      (cpuDir_ne_nodeDir root _ _) (cpuDir_ne_nodeDir root _ _)),
    lastWrite_append_none _ _ _ (lastWrite_cpuTopo_flatMap_none root ncpus _ _
      (fun c' _ n => topoFile_ne_kernel_max root c' n))]
  simp only [lastWrite, List.foldl_cons, List.foldl_nil, lwStep]
  simp

/-- `proc/stat` over the whole emitted sequence. -/
theorem lastWrite_build_stat (tpl : Templates) (ncpus : Int) (root progDir : String)
    (force : Bool) :
    lastWrite (buildActions tpl ncpus root progDir force) (root ++ "/proc/stat") =
      some (tpl.statRendered (cpuStat ncpus)) := by
  rw [buildActions,
    lastWrite_append_none _ _ _ (lastWrite_chmod_none force root _),
    lastWrite_append_none _ _ _ (lastWrite_tail_seg_none root progDir _ _ _
      (by rw [n0DirFile_eq]; exact procStat_ne_nodeDir root _)
      (by rw [n0DirFile_eq]; exact procStat_ne_nodeDir root _)),
    lastWrite_append_none _ _ _ (lastWrite_symlinks_none _ _ _ _),
    lastWrite_append_none _ _ _ (lastWrite_node_seg_none root _
      (procStat_ne_nodeDir root _) (procStat_ne_nodeDir root _)
      (procStat_ne_nodeDir root _) (procStat_ne_nodeDir root _)),
    lastWrite_append_none _ _ _ (lastWrite_cpuTopo_flatMap_none root ncpus _ _
      (fun c' _ n => topoFile_ne_procStat root c' n))]
  simp only [lastWrite, List.foldl_cons, List.foldl_nil, lwStep]
  rw [if_neg (procStat_ne_cpuDir root _), if_neg (procStat_ne_cpuDir root _),
    if_neg (procStat_ne_cpuDir root _), if_neg (procStat_ne_cpuDir root _),
    if_neg (procStat_ne_cpuDir root _), if_neg (procStat_ne_cpuDir root _)]
  simp

/-- `sys/devices/system/node/node0/cpumap` over the whole emitted sequence. -/
theorem lastWrite_build_cpumap (tpl : Templates) (ncpus : Int) (root progDir : String)
    (force : Bool) :
    lastWrite (buildActions tpl ncpus root progDir force) (n0Dir root ++ "cpumap") =
      some (echo (coreSiblingsMask ncpus)) := by
  rw [buildActions,
    lastWrite_append_none _ _ _ (lastWrite_chmod_none force root _)]
  apply lastWrite_append_some
  simp only [lastWrite, List.foldl_cons, List.foldl_nil, lwStep]
  rw [if_neg (n0Dir_append_ne root _ _ (by decide))]
  simp

/-- `thread_siblings` of core `c` over the whole emitted sequence. -/
theorem lastWrite_build_thread_siblings (tpl : Templates) (ncpus : Int)
    (root progDir : String) (force : Bool) (c : Nat) (hc : c < ncpus.toNat) :
    lastWrite (buildActions tpl ncpus root progDir force)
        (topoDir root c ++ "thread_siblings") =
      some (echo (getMask (c : Int) (c : Int))) := by
  rw [buildActions,
    lastWrite_append_none _ _ _ (lastWrite_chmod_none force root _),
    lastWrite_append_none _ _ _ (lastWrite_tail_seg_none root progDir _ _ _
      (by rw [topoDirFile_eq, n0DirFile_eq]; exact cpuDir_ne_nodeDir root _ _)
      (by rw [topoDirFile_eq, n0DirFile_eq]; exact cpuDir_ne_nodeDir root _ _)),
    lastWrite_append_none _ _ _ (lastWrite_symlinks_none _ _ _ _),
    lastWrite_append_none _ _ _ (lastWrite_node_seg_none root _
      (by rw [topoDirFile_eq]; exact cpuDir_ne_nodeDir root _ _)
      (by rw [topoDirFile_eq]; exact cpuDir_ne_nodeDir root _ _)
      (by rw [topoDirFile_eq]; exact cpuDir_ne_nodeDir root _ _)
      (by rw [topoDirFile_eq]; exact cpuDir_ne_nodeDir root _ _))]
  apply lastWrite_append_some
  exact lastWrite_flatMap_group root ncpus _ c (List.mem_range.mpr hc) _ _
    (lastWrite_group_thread_siblings root ncpus c)

/-- `core_siblings` of core `c` over the whole emitted sequence. -/
theorem lastWrite_build_core_siblings (tpl : Templates) (ncpus : Int)
    (root progDir : String) (force : Bool) (c : Nat) (hc : c < ncpus.toNat) :
    lastWrite (buildActions tpl ncpus root progDir force)
        (topoDir root c ++ "core_siblings") =
      some (echo (coreSiblingsMask ncpus)) := by
  rw [buildActions,
    lastWrite_append_none _ _ _ (lastWrite_chmod_none force root _),
    lastWrite_append_none _ _ _ (lastWrite_tail_seg_none root progDir _ _ _
      (by rw [topoDirFile_eq, n0DirFile_eq]; exact cpuDir_ne_nodeDir root _ _)
      (by rw [topoDirFile_eq, n0DirFile_eq]; exact cpuDir_ne_nodeDir root _ _)),
    lastWrite_append_none _ _ _ (lastWrite_symlinks_none _ _ _ _),
    lastWrite_append_none _ _ _ (lastWrite_node_seg_none root _
      (by rw [topoDirFile_eq]; exact cpuDir_ne_nodeDir root _ _)
      (by rw [topoDirFile_eq]; exact cpuDir_ne_nodeDir root _ _)
      (by rw [topoDirFile_eq]; exact cpuDir_ne_nodeDir root _ _)
      (by rw [topoDirFile_eq]; exact cpuDir_ne_nodeDir root _ _))]
  apply lastWrite_append_some
  exact lastWrite_flatMap_group root ncpus _ c (List.mem_range.mpr hc) _ _
    (lastWrite_group_core_siblings root ncpus c)

/-- `core_siblings_list` of core `c` over the whole emitted sequence. -/
theorem lastWrite_build_core_siblings_list (tpl : Templates) (ncpus : Int)
    (root progDir : String) (force : Bool) (c : Nat) (hc : c < ncpus.toNat) :
    lastWrite (buildActions tpl ncpus root progDir force)
        (topoDir root c ++ "core_siblings_list") =
      some (echo (cpuList ncpus)) := by
  rw [buildActions,
    lastWrite_append_none _ _ _ (lastWrite_chmod_none force root _),
    lastWrite_append_none _ _ _ (lastWrite_tail_seg_none root progDir _ _ _
      (by rw [topoDirFile_eq, n0DirFile_eq]; exact cpuDir_ne_nodeDir root _ _)
      (by rw [topoDirFile_eq, n0DirFile_eq]; exact cpuDir_ne_nodeDir root _ _)),
    lastWrite_append_none _ _ _ (lastWrite_symlinks_none _ _ _ _),
    lastWrite_append_none _ _ _ (lastWrite_node_seg_none root _
      (by rw [topoDirFile_eq]; exact cpuDir_ne_nodeDir root _ _)
      (by rw [topoDirFile_eq]; exact cpuDir_ne_nodeDir root _ _)
      (by rw [topoDirFile_eq]; exact cpuDir_ne_nodeDir root _ _)
      (by rw [topoDirFile_eq]; exact cpuDir_ne_nodeDir root _ _))]
  apply lastWrite_append_some
  exact lastWrite_flatMap_group root ncpus _ c (List.mem_range.mpr hc) _ _
    (lastWrite_group_core_siblings_list root ncpus c)

/-! ## Runs that pass the precondition checks -/

theorem buildRun_success (tpl : Templates) (ncpus : Int) (root progDir : String)
    (force destExists : Bool) (h1 : 1 ≤ ncpus) (h2 : force = true ∨ destExists = false) :
    buildRun tpl ncpus root progDir force destExists [] =
      { actions := buildActions tpl ncpus root progDir force,
        error := none,
        warns := (List.range ncpus.toNat).flatMap
          (fun _ => if maxCpus ncpus > 255 then [x2apicWarning] else []) } := by
  rw [buildRun, if_neg (by omega)]
  have hdf : ¬ (destExists && !force) = true := by
    rcases h2 with h | h <;> subst h <;> simp
  rw [if_neg hdf, if_neg (by simp)]

/-! ## The `CPUSTAT` string, line by line -/

/-- The aggregate first line of `CPUSTAT`. -/
def statAggregateLine (ncpus : Int) : String :=
  "cpu  " ++ sjoin " " (cpuAct.map fun x => toString (x * ncpus))

/-- The per-core line of `CPUSTAT` for core `c` (without its leading
newline). -/
def statBaselineLine (c : Nat) : String :=
  "cpu" ++ Nat.repr c ++ " " ++ sjoin " " (cpuAct.map fun x => toString x)

theorem foldl_newline_sjoin (g : Nat → String) :
    ∀ (L : List Nat) (a : String),
      L.foldl (fun s c => s ++ ("\n" ++ g c)) a = sjoin "\n" (a :: L.map g) := by
  intro L
  induction L with
  | nil => intro a; rfl
  | cons b L ih =>
    intro a
    rw [List.foldl_cons, ih (a ++ ("\n" ++ g b)), List.map_cons]
    cases hL : L.map g with
    | nil =>
      show a ++ ("\n" ++ g b) = a ++ "\n" ++ sjoin "\n" [g b]
      rw [String.append_assoc]
      rfl
    | cons x xs =>
      show (a ++ ("\n" ++ g b)) ++ "\n" ++ sjoin "\n" (x :: xs)
        = a ++ "\n" ++ sjoin "\n" (g b :: x :: xs)
      rw [show sjoin "\n" (g b :: x :: xs) = g b ++ "\n" ++ sjoin "\n" (x :: xs) from rfl]
      simp [String.append_assoc]

theorem cpuStat_eq_lines (ncpus : Int) :
    cpuStat ncpus = sjoin "\n"
      (statAggregateLine ncpus :: (List.range ncpus.toNat).map statBaselineLine) := by
  rw [cpuStat]
  have hline : ∀ c : Nat,
      (fun s c => s ++ ("\ncpu" ++ Nat.repr c ++ " ") ++
        sjoin " " (cpuAct.map fun x => toString x)) = fun s c => s ++ ("\n" ++ statBaselineLine c) := by
    intro c
    funext s c'
    rw [statBaselineLine]
    apply String.ext
    simp [String.data_append]
  rw [hline 0, foldl_newline_sjoin statBaselineLine, statAggregateLine]

/-! ## Character classes of the rendered pieces -/

theorem natRepr_isDigit (n : Nat) : ∀ ch ∈ (Nat.repr n).data, ch.isDigit = true := by
  rw [repr_data_eq_natToChars]
  exact natToChars_isDigit n

theorem sjoin_chars (sep : String) (P : Char → Prop) (hsep : ∀ ch ∈ sep.data, P ch) :
    ∀ (l : List String), (∀ s ∈ l, ∀ ch ∈ s.data, P ch) →
      ∀ ch ∈ (sjoin sep l).data, P ch := by
  intro l
  induction l with
  | nil =>
    intro _ ch hch
    simp [sjoin] at hch
  | cons a l ih =>
    intro hl ch hch
    cases l with
    | nil =>
      exact hl a (List.mem_singleton.mpr rfl) ch hch
    | cons b rest =>
      rw [show sjoin sep (a :: b :: rest) = a ++ sep ++ sjoin sep (b :: rest) from rfl]
      at hch
      simp only [String.data_append, List.mem_append] at hch
      rcases hch with (hch | hch) | hch
      · exact hl a (List.mem_cons_self _ _) ch hch
      · exact hsep ch hch
      · exact ih (fun s hs => hl s (List.mem_cons_of_mem a hs)) ch hch

theorem intRepr_nonneg_chars (x : Int) (hx : 0 ≤ x) :
    ∀ ch ∈ (toString x).data, ch.isDigit = true := by
  have hh : x = ((x.toNat : Nat) : Int) := (Int.toNat_of_nonneg hx).symm
  rw [hh]
  have he : toString (((x.toNat : Nat) : Int)) = Nat.repr x.toNat := rfl
  rw [he]
  exact natRepr_isDigit x.toNat

theorem lowerHexChar_class :
    ∀ d, d < 16 →
      ((lowerHexChar d).isDigit || (decide ('a' ≤ lowerHexChar d) &&
        decide (lowerHexChar d ≤ 'f'))) = true := by
  decide

theorem hex8_length (n : Nat) : (hex8 n).length = 8 := by
  have h : (hex8 n).data = (List.range 8).map fun k => lowerHexChar (n / 16 ^ (7 - k) % 16) :=
    rfl
  rw [String.length, h, List.length_map, List.length_range]

theorem hex8_chars (n : Nat) :
    ∀ ch ∈ (hex8 n).data,
      (ch.isDigit || (decide ('a' ≤ ch) && decide (ch ≤ 'f'))) = true := by
  intro ch hch
  have h : (hex8 n).data = (List.range 8).map fun k => lowerHexChar (n / 16 ^ (7 - k) % 16) :=
    rfl
  rw [h, List.mem_map] at hch
  obtain ⟨k, -, he⟩ := hch
  subst he
  exact lowerHexChar_class _ (Nat.mod_lt _ (by omega))

/-- A concrete trivial template instance, for evaluating the builder at
concrete inputs. -/
def tplTrivial : Templates :=
  { cpuinfoRendered := fun _ => "", statRendered := fun s => s }

/-! ## The claims -/

/-- C2: for all integers `0 ≤ start ≤ end ≤ 255`, `getMask(start, end)`
returns the 256-bit mask whose bit `i` is 1 exactly when `start ≤ i ≤ end`,
rendered as 8 comma-joined words of 8 lowercase hex digits each, most
significant word first (`renderMask256`); in particular `getMask(0, 0)` is
the bit-0 mask, and for `1 ≤ c ≤ 256` the mask of `[0, c-1]` is `2^c - 1`,
exactly the `c` least-significant bits of the concatenated words. -/
theorem getMask_inclusive_range_spec (start e : Int)
    (h0 : 0 ≤ start) (h1 : start ≤ e) (h2 : e ≤ 255) :
    getMask start e = renderMask256 (maskNat start e)
    ∧ (∀ i : Nat, (maskNat start e).testBit i =
        (decide (start ≤ (i : Int)) && decide ((i : Int) ≤ e)))
    ∧ getMask 0 0 =
        "00000000,00000000,00000000,00000000,00000000,00000000,00000000,00000001"
    ∧ (∀ c : Nat, 1 ≤ c → c ≤ 256 →
        getMask 0 ((c : Int) - 1) = renderMask256 (2 ^ c - 1)) := by
  refine ⟨getMask_eq_renderMask start e, ?_, ?_, fun c hc1 hc2 => by
    rw [getMask_eq_renderMask, maskNat_two_pow_sub_one c hc1 hc2]⟩
  · intro i
    rw [maskNat_testBit, inRange]
    by_cases hi : i < 256 <;> by_cases hs : start ≤ (i : Int) <;>
      by_cases he' : (i : Int) ≤ e <;> simp [hi, hs, he'] <;> omega
  · have hm : maskNat 0 0 = 1 := by
      have h := maskNat_two_pow_sub_one 1 (by omega) (by omega)
      norm_num at h
      exact h
    rw [getMask_eq_renderMask, hm]
    decide

/-- Witness for C2 at `start = 0`, `end = 3`. -/
theorem getMask_inclusive_range_spec_witness :
    (0 : Int) ≤ 0 ∧ (0 : Int) ≤ 3 ∧ (3 : Int) ≤ 255 ∧
      (getMask 0 3 = renderMask256 (maskNat 0 3)
       ∧ (∀ i : Nat, (maskNat 0 3).testBit i =
           (decide ((0 : Int) ≤ (i : Int)) && decide ((i : Int) ≤ 3)))
       ∧ getMask 0 0 =
           "00000000,00000000,00000000,00000000,00000000,00000000,00000000,00000001"
       ∧ (∀ c : Nat, 1 ≤ c → c ≤ 256 →
           getMask 0 ((c : Int) - 1) = renderMask256 (2 ^ c - 1))) :=
  ⟨by decide, by decide, by decide,
    getMask_inclusive_range_spec 0 3 (by decide) (by decide) (by decide)⟩

/-- C10: `getMask` is total with a fixed output shape: for every pair of
integer arguments it renders some `n < 2^256` in the 8-word hex format (so
bit positions at or above 256 are never set); when `end < start` or
`start ≥ 256` that `n` is `0`, the all-zero mask; and the output is always
8 comma-separated words of exactly 8 lowercase hex digits. -/
theorem getMask_total_shape (start e : Int) :
    ∃ n : Nat, n < 2 ^ 256
      ∧ getMask start e = renderMask256 n
      ∧ (∀ i : Nat, n.testBit i =
          (decide (start ≤ (i : Int)) && decide ((i : Int) ≤ e) && decide (i < 256)))
      ∧ ((e < start ∨ 256 ≤ start) → n = 0)
      ∧ (∃ ws : List Nat, ws.length = 8
          ∧ getMask start e = sjoin "," (ws.map hex8)
          ∧ ∀ w ∈ ws, (hex8 w).length = 8
              ∧ ∀ ch ∈ (hex8 w).data,
                  (ch.isDigit || (decide ('a' ≤ ch) && decide (ch ≤ 'f'))) = true) := by
  refine ⟨maskNat start e, maskNat_lt start e, getMask_eq_renderMask start e, ?_,
    maskNat_eq_zero start e, ?_⟩
  · intro i
    rw [maskNat_testBit, inRange]
    by_cases hi : i < 256 <;> by_cases hs : start ≤ (i : Int) <;>
      by_cases he' : (i : Int) ≤ e <;> simp [hi, hs, he']
  · refine ⟨((List.range 8).map fun k => maskNat start e / 2 ^ (32 * k) % 2 ^ 32).reverse,
      by simp, ?_, ?_⟩
    · rw [getMask_eq_renderMask, renderMask256, List.map_reverse, List.map_map]
      rfl
    · intro w hw
      exact ⟨hex8_length w, hex8_chars w⟩

/-- C7: a requested core count below 1 makes the run fail with the
InvalidArgument diagnostic (`"ERROR: Need >= 1 cpus!"`, exit 1) before any
filesystem action: no writes, no directory creation. -/
theorem invalid_core_count_rejected (tpl : Templates) (ncpus : Int)
    (root progDir : String) (force destExists : Bool) (args : List String)
    (h : ncpus < 1) :
    buildRun tpl ncpus root progDir force destExists args =
      { actions := [], error := some BuildError.invalidArgument, warns := [] } := by
  rw [buildRun, if_pos h]

/-- Witness for C7 at `coreCount = 0` (destination existing, no force,
stray arguments): still InvalidArgument, still no actions. -/
theorem invalid_core_count_rejected_witness :
    (0 : Int) < 1 ∧
      buildRun tplTrivial 0 "./patchRoot" "./" false true ["extra"] =
        { actions := [], error := some BuildError.invalidArgument, warns := [] } :=
  ⟨by decide,
    invalid_core_count_rejected tplTrivial 0 "./patchRoot" "./" false true ["extra"]
      (by decide)⟩

/-- C8 counterexample: with `coreCount = 0`, an existing destination and no
force, the run fails with InvalidArgument, not DestinationExists — the
core-count check precedes the existence check, refuting the claim as
stated. -/
theorem destination_exists_claim_false_at_zero_cpus :
    (buildRun tplTrivial 0 "./patchRoot" "./" false true []).error ≠
        some BuildError.destinationExists
    ∧ (buildRun tplTrivial 0 "./patchRoot" "./" false true []).error =
        some BuildError.invalidArgument := by
  refine ⟨by decide, by decide⟩

/-- C8 amended: provided `coreCount ≥ 1`, a pre-existing destination without
force fails with the DestinationExists diagnostic and performs no filesystem
action, leaving the destination untouched. -/
theorem destination_exists_rejected (tpl : Templates) (ncpus : Int)
    (root progDir : String) (args : List String) (h1 : 1 ≤ ncpus) :
    buildRun tpl ncpus root progDir false true args =
      { actions := [], error := some BuildError.destinationExists, warns := [] } := by
  rw [buildRun, if_neg (by omega), if_pos (show (true && !false) = true from rfl)]

/-- Witness for the amended C8 at `coreCount = 1`. -/
theorem destination_exists_rejected_witness :
    (1 : Int) ≤ 1 ∧
      buildRun tplTrivial 1 "./patchRoot" "./" false true [] =
        { actions := [], error := some BuildError.destinationExists, warns := [] } :=
  ⟨by decide,
    destination_exists_rejected tplTrivial 1 "./patchRoot" "./" [] (by decide)⟩

/-- C9: with force, the run is a pure function of (templates, coreCount,
destination, script directory): the prior state of the destination does not
influence it; and replaying the emitted action sequence over its own result
leaves the file tree byte-identical, so a second forced run reproduces the
same tree. -/
theorem build_force_deterministic_idempotent (tpl : Templates) (ncpus : Int)
    (root progDir : String) (d₁ d₂ : Bool) (args : List String)
    (fs : String → Option String) :
    buildRun tpl ncpus root progDir true d₁ args =
      buildRun tpl ncpus root progDir true d₂ args
    ∧ applyActions
        (applyActions fs (buildRun tpl ncpus root progDir true d₁ args).actions)
        (buildRun tpl ncpus root progDir true d₁ args).actions
      = applyActions fs (buildRun tpl ncpus root progDir true d₁ args).actions := by
  constructor
  · simp [buildRun]
  · exact applyActions_replay fs _

theorem digit_ne_newline (ch : Char) (h : ch.isDigit = true) : ch ≠ '\n' := by
  intro he
  subst he
  exact absurd h (by decide)

/-- C4: on a successful build, `sys/devices/system/cpu/online`, `possible`
and `present` each contain `"0"` when `coreCount = 1` and
`"0-<coreCount-1>"` otherwise (the shell `echo` appends the final
newline). -/
theorem cpu_list_files_contents (tpl : Templates) (ncpus : Int) (root progDir : String)
    (force destExists : Bool) (h1 : 1 ≤ ncpus) (h2 : force = true ∨ destExists = false) :
    (buildRun tpl ncpus root progDir force destExists []).error = none
    ∧ fileContent (buildRun tpl ncpus root progDir force destExists []).actions
        (cpuDir root ++ "online") =
        some ((if ncpus = 1 then "0" else "0-" ++ toString (ncpus - 1)) ++ "\n")
    ∧ fileContent (buildRun tpl ncpus root progDir force destExists []).actions
        (cpuDir root ++ "possible") =
        some ((if ncpus = 1 then "0" else "0-" ++ toString (ncpus - 1)) ++ "\n")
    ∧ fileContent (buildRun tpl ncpus root progDir force destExists []).actions
        (cpuDir root ++ "present") =
        some ((if ncpus = 1 then "0" else "0-" ++ toString (ncpus - 1)) ++ "\n") := by
  have hcl : cpuList ncpus = if ncpus = 1 then "0" else "0-" ++ toString (ncpus - 1) := by
    by_cases h : ncpus = 1
    · subst h
      rfl
    · rw [cpuList, if_pos (by omega), if_neg h]
  rw [buildRun_success tpl ncpus root progDir force destExists h1 h2]
  refine ⟨rfl, ?_, ?_, ?_⟩
  · rw [fileContent_eq_lastWrite, lastWrite_build_online, echo, hcl]
  · rw [fileContent_eq_lastWrite, lastWrite_build_possible, echo, hcl]
  · rw [fileContent_eq_lastWrite, lastWrite_build_present, echo, hcl]

/-- Witness for C4 at `coreCount = 2`. -/
theorem cpu_list_files_contents_witness :
    (1 : Int) ≤ 2 ∧ (false = true ∨ false = false) ∧
      ((buildRun tplTrivial 2 "./patchRoot" "./" false false []).error = none
       ∧ fileContent (buildRun tplTrivial 2 "./patchRoot" "./" false false []).actions
           (cpuDir "./patchRoot" ++ "online") =
           some ((if (2 : Int) = 1 then "0" else "0-" ++ toString ((2 : Int) - 1)) ++ "\n")
       ∧ fileContent (buildRun tplTrivial 2 "./patchRoot" "./" false false []).actions
           (cpuDir "./patchRoot" ++ "possible") =
           some ((if (2 : Int) = 1 then "0" else "0-" ++ toString ((2 : Int) - 1)) ++ "\n")
       ∧ fileContent (buildRun tplTrivial 2 "./patchRoot" "./" false false []).actions
           (cpuDir "./patchRoot" ++ "present") =
           some ((if (2 : Int) = 1 then "0" else "0-" ++ toString ((2 : Int) - 1)) ++ "\n")) :=
  ⟨by decide, Or.inr rfl,
    cpu_list_files_contents tplTrivial 2 "./patchRoot" "./" false false (by decide)
      (Or.inr rfl)⟩

/-- C5: on a successful build `sys/devices/system/cpu/kernel_max` contains
`max(coreCount, 255)`; a core count above 255 still succeeds, producing only
the (per-core, non-fatal) x2APIC diagnostic warning. -/
theorem kernel_max_content_and_warning (tpl : Templates) (ncpus : Int)
    (root progDir : String) (force destExists : Bool)
    (h1 : 1 ≤ ncpus) (h2 : force = true ∨ destExists = false) :
    (buildRun tpl ncpus root progDir force destExists []).error = none
    ∧ fileContent (buildRun tpl ncpus root progDir force destExists []).actions
        (cpuDir root ++ "kernel_max") = some (toString (max ncpus 255) ++ "\n")
    ∧ (255 < ncpus →
        (buildRun tpl ncpus root progDir force destExists []).warns ≠ []) := by
  rw [buildRun_success tpl ncpus root progDir force destExists h1 h2]
  refine ⟨rfl, ?_, ?_⟩
  · rw [fileContent_eq_lastWrite, lastWrite_build_kernel_max, echo, maxCpus]
  · intro h255
    show (List.range ncpus.toNat).flatMap
      (fun _ => if maxCpus ncpus > 255 then [x2apicWarning] else []) ≠ []
    have hmem : x2apicWarning ∈ (List.range ncpus.toNat).flatMap
        (fun _ => if maxCpus ncpus > 255 then [x2apicWarning] else []) := by
      refine List.mem_flatMap.mpr ⟨0, List.mem_range.mpr (by omega), ?_⟩
      rw [if_pos (show maxCpus ncpus > 255 by rw [maxCpus]; omega)]
      exact List.mem_singleton.mpr rfl
    exact List.ne_nil_of_mem hmem

/-- Witness for C5 at `coreCount = 300` (above 255: warning, no failure). -/
theorem kernel_max_content_and_warning_witness :
    (1 : Int) ≤ 300 ∧ (false = true ∨ false = false) ∧
      ((buildRun tplTrivial 300 "./patchRoot" "./" false false []).error = none
       ∧ fileContent (buildRun tplTrivial 300 "./patchRoot" "./" false false []).actions
           (cpuDir "./patchRoot" ++ "kernel_max") =
           some (toString (max (300 : Int) 255) ++ "\n")
       ∧ (255 < (300 : Int) →
           (buildRun tplTrivial 300 "./patchRoot" "./" false false []).warns ≠ [])) :=
  ⟨by decide, Or.inr rfl,
    kernel_max_content_and_warning tplTrivial 300 "./patchRoot" "./" false false
      (by decide) (Or.inr rfl)⟩

/-- C6: on a successful build `proc/stat` is the stat template rendered with
the `CPUSTAT` string, and that string is one aggregate line carrying the
fixed baseline activity-counter vector with every entry multiplied by
`coreCount`, followed by exactly `coreCount` per-core lines each repeating
the unscaled baseline vector; no line contains a newline. -/
theorem proc_stat_lines (tpl : Templates) (ncpus : Int) (root progDir : String)
    (force destExists : Bool) (h1 : 1 ≤ ncpus) (h2 : force = true ∨ destExists = false) :
    (buildRun tpl ncpus root progDir force destExists []).error = none
    ∧ fileContent (buildRun tpl ncpus root progDir force destExists []).actions
        (root ++ "/proc/stat") = some (tpl.statRendered (cpuStat ncpus))
    ∧ cpuStat ncpus = sjoin "\n"
        (statAggregateLine ncpus :: (List.range ncpus.toNat).map statBaselineLine)
    ∧ statAggregateLine ncpus =
        "cpu  " ++ sjoin " " ((cpuAct.map fun x => x * ncpus).map fun x => toString x)
    ∧ ((List.range ncpus.toNat).map statBaselineLine).length = ncpus.toNat
    ∧ (∀ s ∈ statAggregateLine ncpus :: (List.range ncpus.toNat).map statBaselineLine,
        ∀ ch ∈ s.data, ch ≠ '\n') := by
  rw [buildRun_success tpl ncpus root progDir force destExists h1 h2]
  have hdigits : ∀ x ∈ cpuAct, (0 : Int) ≤ x := by decide
  refine ⟨rfl, ?_, cpuStat_eq_lines ncpus, ?_, by simp, ?_⟩
  · rw [fileContent_eq_lastWrite, lastWrite_build_stat]
  · rw [statAggregateLine, List.map_map]
    rfl
  · intro s hs ch hch
    have hsj : ∀ (l : List String), (∀ t ∈ l, ∀ ch' ∈ t.data, ch'.isDigit = true) →
        ∀ ch' ∈ (sjoin " " l).data, ch' ≠ '\n' := by
      intro l hl
      refine sjoin_chars " " (fun c' => c' ≠ '\n') ?_ l ?_
      · intro c' hc'
        have : c' = ' ' := by simpa using hc'
        subst this
        decide
      · intro t ht ch' hch'
        exact digit_ne_newline ch' (hl t ht ch' hch')
    rcases List.mem_cons.mp hs with hs | hs
    · subst hs
      simp only [statAggregateLine, String.data_append, List.mem_append] at hch
      rcases hch with hch | hch
      · have hne : ∀ x ∈ ("cpu  " : String).data, x ≠ '\n' := by decide
        exact hne ch hch
      · refine hsj _ ?_ ch hch
        intro t ht ch' hch'
        rw [List.mem_map] at ht
        obtain ⟨x, hx, rfl⟩ := ht
        exact intRepr_nonneg_chars (x * ncpus)
          (mul_nonneg (hdigits x hx) (by omega)) ch' hch'
    · rw [List.mem_map] at hs
      obtain ⟨c', -, rfl⟩ := hs
      simp only [statBaselineLine, String.data_append, List.append_assoc,
        List.mem_append] at hch
      rcases hch with hch | hch | hch | hch
      · have hne : ∀ x ∈ ("cpu" : String).data, x ≠ '\n' := by decide
        exact hne ch hch
      · exact digit_ne_newline ch (natRepr_isDigit c' ch hch)
      · have hne : ∀ x ∈ (" " : String).data, x ≠ '\n' := by decide
        exact hne ch hch
      · refine hsj _ ?_ ch hch
        intro t ht ch' hch'
        rw [List.mem_map] at ht
        obtain ⟨x, hx, rfl⟩ := ht
        exact intRepr_nonneg_chars x (hdigits x hx) ch' hch'

/-- Witness for C6 at `coreCount = 2`. -/
theorem proc_stat_lines_witness :
    (1 : Int) ≤ 2 ∧ (false = true ∨ false = false) ∧
      ((buildRun tplTrivial 2 "./patchRoot" "./" false false []).error = none
       ∧ fileContent (buildRun tplTrivial 2 "./patchRoot" "./" false false []).actions
           ("./patchRoot" ++ "/proc/stat") = some (tplTrivial.statRendered (cpuStat 2))
       ∧ cpuStat 2 = sjoin "\n"
           (statAggregateLine 2 :: (List.range (2 : Int).toNat).map statBaselineLine)
       ∧ statAggregateLine 2 =
           "cpu  " ++ sjoin " " ((cpuAct.map fun x => x * 2).map fun x => toString x)
       ∧ ((List.range (2 : Int).toNat).map statBaselineLine).length = (2 : Int).toNat
       ∧ (∀ s ∈ statAggregateLine 2 :: (List.range (2 : Int).toNat).map statBaselineLine,
           ∀ ch ∈ s.data, ch ≠ '\n')) :=
  ⟨by decide, Or.inr rfl,
    proc_stat_lines tplTrivial 2 "./patchRoot" "./" false false (by decide) (Or.inr rfl)⟩

/-- C3 counterexample: at `coreCount = 257`, core index 256, the builder
succeeds (only a warning) but writes `getMask(256, 256)` — the all-zero
mask, since bit positions at or above 256 are silently dropped — to
`thread_siblings`; no mask value below `2^256` has its only set bit at
position 256, so the claim "exactly one bit set, at position c" fails as
stated for every coreCount ≥ 1. -/
theorem thread_siblings_claim_false_at_257 :
    fileContent (buildRun tplTrivial 257 "./patchRoot" "./" false false []).actions
        (topoDir "./patchRoot" 256 ++ "thread_siblings") =
      some (echo (renderMask256 0))
    ∧ ¬ (∃ m : Nat, m < 2 ^ 256
        ∧ fileContent (buildRun tplTrivial 257 "./patchRoot" "./" false false []).actions
            (topoDir "./patchRoot" 256 ++ "thread_siblings") =
          some (echo (renderMask256 m))
        ∧ (∀ i : Nat, m.testBit i = decide (i = 256))) := by
  constructor
  · rw [buildRun_success tplTrivial 257 "./patchRoot" "./" false false (by omega)
      (Or.inr rfl)]
    rw [fileContent_eq_lastWrite,
      lastWrite_build_thread_siblings tplTrivial 257 "./patchRoot" "./" false 256
        (by decide),
      getMask_eq_renderMask,
      maskNat_eq_zero ((256 : Nat) : Int) ((256 : Nat) : Int) (Or.inr (by norm_num))]
  · rintro ⟨m, hm, -, hbit⟩
    have h := hbit 256
    rw [decide_eq_true rfl] at h
    have hge := Nat.testBit_implies_ge h
    omega

/-- C3 amended: for `coreCount ≥ 1` and every core index `c` in
`[0, coreCount)` with `c ≤ 255`, a successful build writes to
`sys/devices/system/cpu/cpu<c>/topology/thread_siblings` a mask with
exactly one bit set, at bit position `c` (namely `2^c`). -/
theorem thread_siblings_one_bit (tpl : Templates) (ncpus : Int)
    (root progDir : String) (force destExists : Bool) (c : Nat)
    (h1 : 1 ≤ ncpus) (h2 : force = true ∨ destExists = false)
    (hc : (c : Int) < ncpus) (hc255 : c ≤ 255) :
    (buildRun tpl ncpus root progDir force destExists []).error = none
    ∧ ∃ m : Nat, m < 2 ^ 256
        ∧ fileContent (buildRun tpl ncpus root progDir force destExists []).actions
            (topoDir root c ++ "thread_siblings") = some (echo (renderMask256 m))
        ∧ (∀ i : Nat, m.testBit i = decide (i = c)) := by
  rw [buildRun_success tpl ncpus root progDir force destExists h1 h2]
  have hcnat : c < ncpus.toNat := by omega
  refine ⟨rfl, 2 ^ c, Nat.pow_lt_pow_right (by omega) (by omega), ?_, ?_⟩
  · rw [fileContent_eq_lastWrite,
      lastWrite_build_thread_siblings tpl ncpus root progDir force c hcnat,
      getMask_eq_renderMask, maskNat_single c hc255]
  · intro i
    rw [Nat.testBit_two_pow]
    by_cases h : i = c
    · subst h
      rfl
    · rw [decide_eq_false (fun e => h e.symm), decide_eq_false h]

/-- Witness for the amended C3 at `coreCount = 2`, `c = 1`. -/
theorem thread_siblings_one_bit_witness :
    (1 : Int) ≤ 2 ∧ (false = true ∨ false = false) ∧ ((1 : Nat) : Int) < 2 ∧ (1 : Nat) ≤ 255 ∧
      ((buildRun tplTrivial 2 "./patchRoot" "./" false false []).error = none
       ∧ ∃ m : Nat, m < 2 ^ 256
           ∧ fileContent (buildRun tplTrivial 2 "./patchRoot" "./" false false []).actions
               (topoDir "./patchRoot" 1 ++ "thread_siblings") =
             some (echo (renderMask256 m))
           ∧ (∀ i : Nat, m.testBit i = decide (i = 1))) :=
  ⟨by decide, Or.inr rfl, by decide, by decide,
    thread_siblings_one_bit tplTrivial 2 "./patchRoot" "./" false false 1 (by decide)
      (Or.inr rfl) (by decide) (by decide)⟩

/-- C1 (code-bug evidence, `coreCount = 1`): the build succeeds and writes
`getMask(0, ncpus)` — not `getMask(0, ncpus - 1)` — to every
`core_siblings` and to `node0/cpumap`.  At one core that is the mask `0x3`,
bits {0, 1}, counting the nonexistent CPU 1, while the builder's own
`core_siblings_list` for the same core says `"0"` and the specified
`CoreRangeMask(0, coreCount-1)` is the one-bit mask `0x1`. -/
theorem core_siblings_off_by_one_at_one_cpu :
    (buildRun tplTrivial 1 "./patchRoot" "./" false false []).error = none
    ∧ fileContent (buildRun tplTrivial 1 "./patchRoot" "./" false false []).actions
        (topoDir "./patchRoot" 0 ++ "core_siblings") = some (echo (getMask 0 1))
    ∧ fileContent (buildRun tplTrivial 1 "./patchRoot" "./" false false []).actions
        (n0Dir "./patchRoot" ++ "cpumap") = some (echo (getMask 0 1))
    ∧ fileContent (buildRun tplTrivial 1 "./patchRoot" "./" false false []).actions
        (topoDir "./patchRoot" 0 ++ "core_siblings_list") = some (echo "0")
    ∧ getMask 0 1 =
        "00000000,00000000,00000000,00000000,00000000,00000000,00000000,00000003"
    ∧ renderMask256 (2 ^ 1 - 1) =
        "00000000,00000000,00000000,00000000,00000000,00000000,00000000,00000001"
    ∧ getMask 0 1 ≠ renderMask256 (2 ^ 1 - 1) := by
  rw [buildRun_success tplTrivial 1 "./patchRoot" "./" false false (by omega) (Or.inr rfl)]
  refine ⟨rfl, ?_, ?_, ?_, by decide, by decide, by decide⟩
  · rw [fileContent_eq_lastWrite,
      lastWrite_build_core_siblings tplTrivial 1 "./patchRoot" "./" false 0 (by decide)]
    rfl
  · rw [fileContent_eq_lastWrite,
      lastWrite_build_cpumap tplTrivial 1 "./patchRoot" "./" false]
    rfl
  · rw [fileContent_eq_lastWrite,
      lastWrite_build_core_siblings_list tplTrivial 1 "./patchRoot" "./" false 0
        (by decide)]
    rfl

end ZsimPatchRoot
